import Mathlib

/-!
Verification of the USDFC terminal analytics core.

This file gives a shallow embedding of the computation core of the repository
(files scripts/advanced_analytics_fetcher_v3.py and
scripts/tradingview_chart_data.py) and proves or refutes the frozen claims
about it.

Modelling conventions:
* Python floats are modelled as rationals.  The code is float-based and its
  specification explicitly accepts rounding tolerance; every claim under
  scrutiny involves only small exactly representable quantities.
* Naive datetimes are modelled as integer Unix seconds (the code strips
  timezone info and works with naive UTC datetimes).  Python floor division
  and modulo agree with Lean Int division and modulo for the positive
  divisors used here.
* Calls of datetime.now() inside a function are lifted to an explicit
  argument of the embedding.
* Python str.lower is modelled by mapping Char.toLower over the characters
  (the addresses and symbols involved are ASCII).
-/

/- ===================================================================
   Part 1: time bucketing (tradingview_chart_data.py)
   =================================================================== -/

/-- TradingView-style resolutions, from the Resolution enum of
tradingview_chart_data.py. -/
inductive Resolution where
  | M1 | M5 | M15 | M30 | H1 | H4 | D1 | W1
deriving DecidableEq

/-- Minutes per bucket of each resolution, from the enum payloads. -/
def Resolution.minutes : Resolution → Int
  | .M1 => 1
  | .M5 => 5
  | .M15 => 15
  | .M30 => 30
  | .H1 => 60
  | .H4 => 240
  | .D1 => 1440
  | .W1 => 10080

/-- Embedding of TradingViewDataFetcher.round_to_resolution.  The input is a
naive datetime as Unix seconds.  The four branches are, in order: weekly
(truncate to the most recent Monday midnight, where the weekday of day d
since the epoch is (d + 3) mod 7 because 1970-01-01 was a Thursday), daily
(truncate to midnight), hourly (truncate to a multiple of minutes/60 hours
within the day) and sub-hourly (truncate the minute within the hour to a
multiple of the minute count). -/
def roundRes (t : Int) (r : Resolution) : Int :=
  let m := r.minutes
  if 10080 ≤ m then
    let d := t / 86400
    let wd := (d + 3) % 7
    (d - wd) * 86400
  else if 1440 ≤ m then
    t / 86400 * 86400
  else if 60 ≤ m then
    let hrs := m / 60
    let d := t / 86400
    let hh := t % 86400 / 3600
    d * 86400 + hh / hrs * hrs * 3600
  else
    let mins := t % 3600 / 60
    (t - t % 3600) + mins / m * m * 60

/-- Seconds per bucket, mirroring timedelta(minutes=resolution.minutes). -/
def stepSec (r : Resolution) : Int := r.minutes * 60

/-- Offset of the bucket grid from multiples of stepSec: buckets of every
resolution are multiples of its step, except weekly buckets which are
Monday midnights, i.e. congruent to 4 days mod 7 days. -/
def phase (r : Resolution) : Int :=
  match r with
  | .W1 => 345600
  | _ => 0

/-- Embedding of TradingViewDataFetcher.generate_time_buckets: all buckets
from round(start) up to round(end) in steps of the resolution span. -/
def genTimeBuckets (start endT : Int) (r : Resolution) : List Int :=
  let s := roundRes start r
  let e := roundRes endT r
  if s > e then []
  else (List.range ((e - s).toNat / (stepSec r).toNat + 1)).map
    (fun i : ℕ => s + stepSec r * (i : Int))

/- ===================================================================
   Part 2: balance OHLC candles (tradingview_chart_data.py)
   =================================================================== -/

/-- One parsed transfer as consumed by _build_balance_ohlc: the dict
with keys timestamp, amount (signed) and abs_amount built in
fetch_balance_chart. -/
structure TItem where
  timestamp : Int
  amount : ℚ
  absAmount : ℚ
deriving DecidableEq

/-- The BalanceCandle dataclass.  The field opn is named open in the
source; open is a reserved word in Lean. -/
structure BalanceCandle where
  time : Int
  opn : ℚ
  high : ℚ
  low : ℚ
  close : ℚ
  volume : ℚ
  tx_count : Nat
  net_change : ℚ
deriving DecidableEq

/-- A default candle used as the fallback value of list indexing in
theorem statements. -/
def dummyCandle : BalanceCandle :=
  ⟨0, 0, 0, 0, 0, 0, 0, 0⟩

/-- State of the per-bucket loop of _build_balance_ohlc: running balance,
bucket high, bucket low, volume and net change accumulators. -/
structure BState where
  rb : ℚ
  high : ℚ
  low : ℚ
  volume : ℚ
  net : ℚ
deriving DecidableEq

/-- The inner loop of _build_balance_ohlc over the transfers of one bucket:
apply each signed amount to the running balance, updating high and low
against the running value and accumulating volume and net change. -/
def innerFold (ts : List TItem) (rb0 : ℚ) : BState :=
  ts.foldl
    (fun s t =>
      let rb := s.rb + t.amount
      ⟨rb, max s.high rb, min s.low rb, s.volume + t.absAmount, s.net + t.amount⟩)
    ⟨rb0, rb0, rb0, 0, 0⟩

/-- The per-bucket grouping of _build_balance_ohlc (defaultdict keyed by
round_to_resolution of the timestamp; each group keeps input order). -/
def bucketsOf (transfers : List TItem) (r : Resolution) : Int → List TItem :=
  fun b => transfers.filter (fun x => roundRes x.timestamp r = b)

/-- The candle construction loop of _build_balance_ohlc: one candle per
bucket time, all four OHLC fields clamped to be nonnegative, carrying the
unclamped running balance across buckets. -/
def candlesFrom (bkts : Int → List TItem) : ℚ → List Int → List BalanceCandle
  | _, [] => []
  | rb, b :: bs =>
    let ts := bkts b
    let s := innerFold ts rb
    ⟨b, max 0 rb, max 0 s.high, max 0 s.low, max 0 s.rb,
      s.volume, ts.length, s.net⟩ :: candlesFrom bkts s.rb bs

/-- First bucket time: min over the bucket keys (all_times[0] after
sorting the keys). -/
def firstBucket (transfers : List TItem) (r : Resolution) : Int :=
  match transfers with
  | [] => 0
  | t :: ts => (ts.map (fun x => roundRes x.timestamp r)).foldl min
      (roundRes t.timestamp r)

/-- Last bucket time: max over the bucket keys (all_times[-1]). -/
def lastBucket (transfers : List TItem) (r : Resolution) : Int :=
  match transfers with
  | [] => 0
  | t :: ts => (ts.map (fun x => roundRes x.timestamp r)).foldl max
      (roundRes t.timestamp r)

/-- The continuous bucket series of _build_balance_ohlc:
generate_time_buckets(start_time, max(last bucket, now)). -/
def bucketListOf (transfers : List TItem) (r : Resolution) (now : Int) : List Int :=
  genTimeBuckets (firstBucket transfers r) (max (lastBucket transfers r) now) r

/-- Embedding of TradingViewDataFetcher._build_balance_ohlc.  The cutoff
argument is accepted and ignored exactly as in the source (the lookback
filter is applied by the caller while fetching).  The now argument stands
for the datetime.now() call used for the end of the bucket range.  The
running balance starts at 0. -/
def buildBalanceOhlc (transfers : List TItem) (r : Resolution)
    (cutoff : Option Int) (now : Int) : List BalanceCandle :=
  match transfers with
  | [] => []
  | _ :: _ => candlesFrom (bucketsOf transfers r) 0 (bucketListOf transfers r now)

/-- Signed sum of the amounts of a bucket applied to a running balance
(the net effect of one bucket on the running balance). -/
def applyBucket (ts : List TItem) (rb : ℚ) : ℚ :=
  ts.foldl (fun a t => a + t.amount) rb

/-- Running balance after a list of buckets. -/
def rbAfter (bkts : Int → List TItem) (rb : ℚ) (bs : List Int) : ℚ :=
  bs.foldl (fun a b => applyBucket (bkts b) a) rb

/-- Sum of the signed amounts of a list of transfers. -/
def sumAmt (ts : List TItem) : ℚ := ts.foldl (fun a t => a + t.amount) 0

/-- Sum of the absolute amounts of a list of transfers. -/
def sumAbs (ts : List TItem) : ℚ := ts.foldl (fun a t => a + t.absAmount) 0

/-- The unclamped running balances at the bucket boundaries: entry i is the
running balance entering bucket i, and the final entry is the balance after
the last bucket. -/
def rawBalances (bkts : Int → List TItem) : ℚ → List Int → List ℚ
  | rb, [] => [rb]
  | rb, b :: bs => rb :: rawBalances bkts (applyBucket (bkts b) rb) bs

/- ===================================================================
   Part 3: string helpers shared by the analytics embedding
   =================================================================== -/

/-- Python str.lower, modelled characterwise (inputs here are ASCII).
String.toLower of core Lean is the same map but is stated via String.mapAux,
which the kernel cannot evaluate; this version is kernel-computable. -/
def strToLower (s : String) : String := String.mk (s.data.map Char.toLower)

/-- Bool test that one character list is a prefix of another. -/
def listPre : List Char → List Char → Bool
  | [], _ => true
  | _ :: _, [] => false
  | a :: as, b :: bs => a == b && listPre as bs

/-- Bool test that the first character list occurs inside the second. -/
def listSub (n : List Char) : List Char → Bool
  | [] => n.isEmpty
  | b :: bs => listPre n (b :: bs) || listSub n bs

/-- The Python expression needle in hay on strings (substring test). -/
def strContains (hay needle : String) : Bool := listSub needle.data hay.data

/- ===================================================================
   Part 4: normalized transfers and the swap classifier
   (advanced_analytics_fetcher_v3.py)
   =================================================================== -/

/-- One normalized transfer dict as produced by the per-item loop of
ParallelDataEngine.fetch_address_all_transfers.  The timestamp is the raw
value from the API and can be missing (None). -/
structure Transfer where
  timestamp : Option String
  from_addr : String
  to_addr : String
  amount : ℚ
  token_symbol : String
  token_address : String
  tx_hash : String
  block : Option Int
  direction : String
  is_contract : Bool
  contract_type : String
deriving DecidableEq

/-- One router interaction dict as produced by
ParallelDataEngine.fetch_address_transactions. -/
structure RouterInteraction where
  router : String
  method : String
  tx_hash : String
  timestamp : Option String
deriving DecidableEq

/-- The SwapRecord dataclass. -/
structure SwapRecord where
  timestamp : Option String
  tx_hash : String
  swap_type : String
  token_in : String
  token_out : String
  amount_in : ℚ
  amount_out : ℚ
  router : Option String
  pool : Option String
deriving DecidableEq

/-- Keys of a Python dict built by inserting under each list element in
order: the distinct values in order of first occurrence.  Used to model
iteration over the tx_groups defaultdict of detect_swaps. -/
def keysInOrder (l : List String) : List String :=
  l.foldl (fun acc h => if acc.contains h then acc else acc ++ [h]) []

/-- Python max(list, key=amount) over a nonempty list: the first element
with maximal amount (later elements replace only on strictly greater). -/
def maxByAmount (best : Transfer) : List Transfer → Transfer
  | [] => best
  | t :: ts => maxByAmount (if best.amount < t.amount then t else best) ts

/-- Method 1 of detect_swaps for one transaction group: skip groups of
fewer than two transfers or with an empty hash; when the group has both an
inbound and an outbound leg, emit one swap whose legs are the maximal
inbound and outbound events, classified sell/buy/other by whether USDFC
appears among the outbound respectively inbound legs, attributing the first
router-tagged event.  (The source also sums total_in and total_out but
never uses them.) -/
def step1One (transfers : List Transfer) (h : String) : Option SwapRecord :=
  let group := transfers.filter (fun t => t.tx_hash = h)
  if group.length < 2 ∨ h = "" then none
  else
    let tokens_in := group.filter (fun t => t.direction = "in")
    let tokens_out := group.filter (fun t => t.direction = "out")
    match tokens_in, tokens_out with
    | tin0 :: tinRest, tout0 :: toutRest =>
      let primary_in := maxByAmount tin0 tinRest
      let primary_out := maxByAmount tout0 toutRest
      let has_usdfc_out := (tout0 :: toutRest).any (fun t => t.token_symbol = "USDFC")
      let has_usdfc_in := (tin0 :: tinRest).any (fun t => t.token_symbol = "USDFC")
      let swap_type := if has_usdfc_out then "sell"
        else if has_usdfc_in then "buy" else "other"
      let router := match group.find? (fun t => strContains t.contract_type "router:") with
        | some t => some (t.contract_type.replace "router:" "")
        | none => none
      some ⟨primary_out.timestamp, h, swap_type,
        primary_in.token_symbol, primary_out.token_symbol,
        primary_in.amount, primary_out.amount, router, none⟩
    | _, _ => none

/-- Method 3 of detect_swaps, one step of the loop over all transfers:
synthesize a single-leg pool swap for a pool-tagged transfer whose hash is
not yet present in the accumulated swap list. -/
def method3Step (acc : List SwapRecord) (t : Transfer) : List SwapRecord :=
  if t.is_contract && strContains t.contract_type "pool:" then
    if acc.any (fun s => s.tx_hash = t.tx_hash) then acc
    else acc ++ [⟨t.timestamp, t.tx_hash,
      if t.direction = "in" then "buy" else "sell",
      if t.direction = "in" then t.token_symbol else "WFIL",
      if t.direction = "in" then "WFIL" else t.token_symbol,
      if t.direction = "in" then t.amount else 0,
      if t.direction = "in" then 0 else t.amount,
      none, some (t.contract_type.replace "pool:" "")⟩]
  else acc

/-- Embedding of ParallelDataEngine.detect_swaps.  Method 1 walks the
transaction groups (keys in first-occurrence order); method 2 emits a
placeholder for every router interaction whose hash is not in the snapshot
of hashes taken after method 1 (the source takes this set once, before its
loop); method 3 folds over all transfers adding pool-fallback swaps,
checking each hash against the list accumulated so far.  The address
argument is unused in the source beyond computing an unused lowercase
copy. -/
def detectSwaps (address : String) (all_transfers : List Transfer)
    (router_interactions : List RouterInteraction) : List SwapRecord :=
  let _addr_lower := strToLower address
  let keys := keysInOrder (all_transfers.map (fun t => t.tx_hash))
  let swaps1 := keys.filterMap (step1One all_transfers)
  let hashes1 := swaps1.map (fun s => s.tx_hash)
  let swaps2 := router_interactions.filterMap (fun ri =>
    if hashes1.contains ri.tx_hash then none
    else some ⟨ri.timestamp, ri.tx_hash, "router_interaction",
      "UNKNOWN", "UNKNOWN", 0, 0, some ri.router, none⟩)
  all_transfers.foldl method3Step (swaps1 ++ swaps2)

/- ===================================================================
   Part 5: balance reconstruction (advanced_analytics_fetcher_v3.py)
   =================================================================== -/

/-- The BalancePoint dataclass.  The event string of the source embeds the
formatted amount (for example "received 100.00"); only its leading word is
modelled since no consumer inspects the rest. -/
structure BalancePoint where
  timestamp : Option String
  balance : ℚ
  event : String
  data_complete : Bool
deriving DecidableEq

/-- A default balance point used as the fallback value of list indexing
in theorem statements. -/
def dummyPoint : BalancePoint := ⟨none, 0, "", true⟩

/-- One step of the backward walk of compute_balance_history: undo the
transfer on the running balance (outflows are added back, inflows are
subtracted), flag the point incomplete when the running balance drops
below the float tolerance -0.01, and append the point with the reported
balance clamped at zero. -/
def balanceWalkStep (isComplete : Bool) (st : ℚ × List BalancePoint)
    (t : Transfer) : ℚ × List BalancePoint :=
  let rb := if t.direction = "out" then st.1 + t.amount else st.1 - t.amount
  let dataOk : Bool := if -(1 : ℚ) / 100 ≤ rb then true else false
  (rb, st.2 ++ [⟨t.timestamp, max 0 rb,
    if t.direction = "out" then "sent" else "received",
    dataOk && isComplete⟩])

/-- Embedding of the balance-history series computed by
ParallelDataEngine.compute_balance_history (the function additionally
derives holding periods from this series; those are not needed by the
claims about it).  The transfers are filtered to the reference token,
sorted by timestamp string descending (Python sorts by the key
x.get(timestamp, ...) and is stable; insertionSort with the reversed
relation has the same stability), walked backward from the current
balance, and the accumulated points are reversed to chronological order.
nowIso stands for datetime.now().isoformat(). -/
def computeBalanceHistory (usdfcAddr : String) (transfers : List Transfer)
    (currentBalance : ℚ) (isComplete : Bool) (nowIso : String) : List BalancePoint :=
  let usdfcTransfers := transfers.filter
    (fun t => strToLower t.token_address = strToLower usdfcAddr)
  match usdfcTransfers with
  | [] => [⟨some nowIso, currentBalance, "current", isComplete⟩]
  | u :: us =>
    let sortedT := List.insertionSort
      (fun a b => (b.timestamp.getD "") ≤ (a.timestamp.getD "")) (u :: us)
    ((sortedT.foldl (balanceWalkStep isComplete)
      (currentBalance,
        [⟨some nowIso, currentBalance, "current", isComplete⟩])).2).reverse

/- ===================================================================
   Part 6: event normalization and chart-transfer parsing
   =================================================================== -/

/-- One raw token-transfer item as returned by the block explorer API,
with the fields read by the two ingestion loops.  Option models a key
whose value is missing or null. -/
structure RawTransferItem where
  timestamp : Option String
  from_hash : String
  to_hash : String
  value : ℚ
  decimals : ℕ
  token_symbol : String
  token_address : String
  transaction_hash : String
  block_number : Option Int
deriving DecidableEq

/-- Embedding of is_contract_interaction: first match in the pool table,
else first match in the router table, case-insensitive on either
endpoint. -/
def isContractInteraction (fromAddr toAddr : String)
    (pools routers : List (String × String)) : Bool × String :=
  let fl := strToLower fromAddr
  let tl := strToLower toAddr
  match pools.find? (fun p => strToLower p.2 = fl ∨ strToLower p.2 = tl) with
  | some p => (true, "pool:" ++ p.1)
  | none =>
    match routers.find? (fun p => strToLower p.2 = fl ∨ strToLower p.2 = tl) with
    | some p => (true, "router:" ++ p.1)
    | none => (false, "unknown")

/-- The normalization loop of fetch_address_all_transfers: every raw item
becomes exactly one transfer dict; the direction is computed against the
subject address and the counterparty tag against the static tables.  No
record is dropped, whether or not its timestamp is present. -/
def normalizeTransfers (address : String)
    (pools routers : List (String × String))
    (items : List RawTransferItem) : List Transfer :=
  items.map (fun t =>
    let direction := if strToLower t.to_hash = strToLower address then "in"
      else if strToLower t.from_hash = strToLower address then "out"
      else "internal"
    let ic := isContractInteraction t.from_hash t.to_hash pools routers
    ⟨t.timestamp, t.from_hash, t.to_hash,
      t.value / 10 ^ t.decimals,
      t.token_symbol, t.token_address, t.transaction_hash, t.block_number,
      direction, ic.1, ic.2⟩)

/-- The transfer-parsing loop of fetch_balance_chart: skip items of other
tokens, skip items with a missing or empty timestamp, stop entirely at the
first item older than the cutoff (the source sets url = None and breaks),
and emit signed and absolute amounts at the fixed 18-decimal scale.
parseTs stands for datetime.fromisoformat on the already nonempty
timestamp string. -/
def parseChartTransfers (address usdfcAddr : String)
    (parseTs : String → Int) (cutoff : Option Int) :
    List RawTransferItem → List TItem
  | [] => []
  | t :: rest =>
    if strToLower t.token_address ≠ strToLower usdfcAddr then
      parseChartTransfers address usdfcAddr parseTs cutoff rest
    else if t.timestamp.getD "" = "" then
      parseChartTransfers address usdfcAddr parseTs cutoff rest
    else
      let ts := parseTs (t.timestamp.getD "")
      match cutoff with
      | some c =>
        if ts < c then []
        else
          let direction : ℚ := if strToLower t.to_hash = strToLower address then 1 else -1
          let amount := t.value / 1000000000000000000
          ⟨ts, amount * direction, amount⟩ ::
            parseChartTransfers address usdfcAddr parseTs cutoff rest
      | none =>
        let direction : ℚ := if strToLower t.to_hash = strToLower address then 1 else -1
        let amount := t.value / 1000000000000000000
        ⟨ts, amount * direction, amount⟩ ::
          parseChartTransfers address usdfcAddr parseTs cutoff rest

/- ===================================================================
   Part 7: behavior scoring (advanced_analytics_fetcher_v3.py)
   =================================================================== -/

/-- The two lending counters read by compute_behavior_scores from
lending[stats]. -/
structure LendingStats where
  lend_tx_count : ℕ
  borrow_tx_count : ℕ
deriving DecidableEq

/-- The six scores of compute_behavior_scores. -/
structure BehaviorScores where
  trader_score : ℕ
  holder_score : ℕ
  defi_score : ℕ
  whale_score : ℕ
  activity_score : ℕ
  diversity_score : ℕ
deriving DecidableEq

/-- Embedding of ParallelDataEngine.compute_behavior_scores.  parseTs
stands for parse_timestamp on a nonempty string (None models a parse
failure) and now for datetime.now(); the day difference uses floor
division exactly as timedelta.days does.  Tags are accumulated in source
order and replaced by the single tag "Casual User" when empty. -/
def computeBehaviorScores (parseTs : String → Option Int) (now : Int)
    (transfers : List Transfer) (swaps : List SwapRecord)
    (lending : LendingStats) (balance_history : List BalancePoint)
    (router_interactions : List RouterInteraction)
    (current_balance : ℚ) : BehaviorScores × List String :=
  let swap_count := swaps.length
  let traderScore : ℕ :=
    if swap_count > 20 then 100 else if swap_count > 10 then 70
    else if swap_count > 5 then 40 else if swap_count > 0 then 20 else 0
  let traderTags : List String :=
    if swap_count > 20 then ["Active Trader"]
    else if swap_count > 10 then ["Trader"] else []
  let lending_tx := lending.lend_tx_count + lending.borrow_tx_count
  let router_count := router_interactions.length
  let defiScore : ℕ :=
    if lending_tx > 10 ∨ router_count > 5 then 100
    else if lending_tx > 5 ∨ router_count > 2 then 70
    else if lending_tx > 0 ∨ router_count > 0 then 40 else 0
  let defiTags : List String :=
    if lending_tx > 10 ∨ router_count > 5 then ["DeFi Power User"]
    else if lending_tx > 5 ∨ router_count > 2 then ["Active DeFi User"]
    else if lending_tx > 0 ∨ router_count > 0 then ["DeFi User"] else []
  let holderScore : ℕ :=
    if balance_history.length > 50 then 80
    else if balance_history.length > 20 then 50 else 0
  let holderTags : List String :=
    if balance_history.length > 50 then ["Long-term User"] else []
  let currentTags : List String :=
    if current_balance > 0 then ["Current Holder"] else []
  let whaleScore : ℕ :=
    if current_balance > 50000 then 100
    else if current_balance > 10000 then 70
    else if current_balance > 1000 then 40 else 0
  let whaleTags : List String :=
    if current_balance > 50000 then ["Whale"]
    else if current_balance > 10000 then ["Large Holder"] else []
  let activityPair : ℕ × List String :=
    match transfers with
    | [] => (0, [])
    | t :: _ =>
      match (match t.timestamp with
             | none => none
             | some s => if s = "" then none else parseTs s) with
      | none => (0, [])
      | some latest =>
        let days_since := Int.fdiv (now - latest) 86400
        if days_since < 7 then (100, ["Recently Active"])
        else if days_since < 30 then (70, [])
        else if days_since < 90 then (40, [])
        else (0, ["Inactive"])
  let uniqueTokens := (transfers.map (fun t => t.token_symbol)).dedup
  let divScore : ℕ :=
    if uniqueTokens.length > 5 then 100
    else if uniqueTokens.length > 3 then 70
    else if uniqueTokens.length > 1 then 40 else 0
  let divTags : List String :=
    if uniqueTokens.length > 5 then ["Multi-Token User"] else []
  let crossTags : List String :=
    if router_interactions.any (fun ri => strContains (strToLower ri.router) "squid")
    then ["Cross-Chain User"] else []
  let tags := traderTags ++ defiTags ++ holderTags ++ currentTags ++
    whaleTags ++ activityPair.2 ++ divTags ++ crossTags
  (⟨traderScore, holderScore, defiScore, whaleScore, activityPair.1, divScore⟩,
    if tags.isEmpty then ["Casual User"] else tags)

/- ===================================================================
   Part 8: concrete example inputs used by the claim instances
   =================================================================== -/

/-- A placeholder swap record for witness instantiations. -/
def dummySwap : SwapRecord := ⟨none, "", "other", "", "", 0, 0, none, none⟩

/-- Inbound USDFC leg of the two-leg example transaction of the spec. -/
def exTIn : Transfer :=
  ⟨some "2024-01-01T10:00:00", "0xpool", "0xsubject", 100, "USDFC",
    "0xusdfc", "0xh1", none, "in", false, "unknown"⟩

/-- Outbound WFIL leg of the two-leg example transaction of the spec. -/
def exTOut : Transfer :=
  ⟨some "2024-01-01T10:00:00", "0xsubject", "0xpool", 50, "WFIL",
    "0xwfil", "0xh1", none, "out", false, "unknown"⟩

/-- The swap the classifier emits for the two-leg example. -/
def exSwapBuy : SwapRecord :=
  ⟨some "2024-01-01T10:00:00", "0xh1", "buy", "USDFC", "WFIL", 100, 50,
    none, none⟩

/-- The single reference-token inflow of the balance-reconstruction
example: direction in, amount 100, at time T. -/
def exT2 : Transfer :=
  ⟨some "2024-01-01T00:00:00", "0xpool", "0xsubject", 100, "USDFC",
    "0xusdfc", "0xh1", none, "in", false, "unknown"⟩

/-- A raw transfer item whose timestamp is missing (None). -/
def exRaw : RawTransferItem :=
  ⟨none, "0xa", "0xb", 0, 18, "USDFC", "0xusdfc", "0xh1", none⟩

/-- A router interaction used in the duplicate-hash counterexample. -/
def exRI : RouterInteraction :=
  ⟨"squid_router_proxy", "bridgeCall", "0xhh", some "2024-01-01T00:00:00"⟩

/-- The hourly example event list: +10 at 09:00, -4 at 11:00 (Unix
seconds of day zero). -/
def exItems6 : List TItem := [⟨32400, 10, 10⟩, ⟨39600, -4, 4⟩]

/- ===================================================================
   Theorems for claim C10 (bucket alignment)
   =================================================================== -/

theorem stepSec_pos (r : Resolution) : 0 < stepSec r := by
  cases r <;> simp [stepSec, Resolution.minutes]

theorem roundRes_spec (t : Int) (r : Resolution) :
    roundRes t r ≤ t ∧ t < roundRes t r + stepSec r ∧
    (stepSec r) ∣ (roundRes t r - phase r) := by
  cases r <;> simp only [roundRes, stepSec, phase, Resolution.minutes] <;>
    norm_num <;> omega

theorem roundRes_grid_unique (g₁ g₂ t : Int) (r : Resolution)
    (h₁ : stepSec r ∣ (g₁ - phase r)) (h₂ : stepSec r ∣ (g₂ - phase r))
    (hle₁ : g₁ ≤ t) (hlt₁ : t < g₁ + stepSec r)
    (hle₂ : g₂ ≤ t) (hlt₂ : t < g₂ + stepSec r) : g₁ = g₂ := by
  cases r <;>
    simp only [stepSec, phase, Resolution.minutes] at h₁ h₂ hlt₁ hlt₂ <;>
    omega

theorem roundRes_idem (t : Int) (r : Resolution) :
    roundRes (roundRes t r) r = roundRes t r := by
  obtain ⟨h1, h2, h3⟩ := roundRes_spec t r
  obtain ⟨h1', h2', h3'⟩ := roundRes_spec (roundRes t r) r
  exact roundRes_grid_unique (roundRes (roundRes t r) r) (roundRes t r)
    (roundRes t r) r h3' h3 h1' h2' le_rfl
    (by have := stepSec_pos r; omega)

theorem roundRes_mono {t₁ t₂ : Int} (r : Resolution) (h : t₁ ≤ t₂) :
    roundRes t₁ r ≤ roundRes t₂ r := by
  obtain ⟨h1, h2, h3⟩ := roundRes_spec t₁ r
  obtain ⟨h1', h2', h3'⟩ := roundRes_spec t₂ r
  cases r <;>
    simp only [stepSec, phase, Resolution.minutes] at h2 h2' h3 h3' <;>
    omega

/-- C10: bucket alignment is idempotent and never moves a timestamp
forward: for every time t and resolution r,
round_to_resolution(round_to_resolution(t, r), r) = round_to_resolution(t, r)
and round_to_resolution(t, r) ≤ t. -/
theorem claim_C10 (t : Int) (r : Resolution) :
    roundRes (roundRes t r) r = roundRes t r ∧ roundRes t r ≤ t :=
  ⟨roundRes_idem t r, (roundRes_spec t r).1⟩

/- ===================================================================
   Theorems for claim C8 (behavior classifier thresholds)
   =================================================================== -/

/-- C8: a swap list of exactly 21 elements yields trader_score 100 and the
tag "Active Trader"; exactly 20 elements yield trader_score 70 and the tag
"Trader". -/
theorem claim_C8 (parseTs : String → Option Int) (now : Int)
    (transfers : List Transfer) (swaps : List SwapRecord)
    (lending : LendingStats) (bh : List BalancePoint)
    (ris : List RouterInteraction) (cb : ℚ) :
    (swaps.length = 21 →
      (computeBehaviorScores parseTs now transfers swaps lending bh ris cb).1.trader_score = 100 ∧
      "Active Trader" ∈ (computeBehaviorScores parseTs now transfers swaps lending bh ris cb).2) ∧
    (swaps.length = 20 →
      (computeBehaviorScores parseTs now transfers swaps lending bh ris cb).1.trader_score = 70 ∧
      "Trader" ∈ (computeBehaviorScores parseTs now transfers swaps lending bh ris cb).2) := by
  constructor <;> intro h <;> simp [computeBehaviorScores, h]

/-- C8 witness: the threshold behavior evaluated at concrete swap lists
of lengths 21 and 20. -/
theorem claim_C8_witness :
    ((List.replicate 21 dummySwap).length = 21 ∧
      (computeBehaviorScores (fun _ => none) 0 [] (List.replicate 21 dummySwap)
        ⟨0, 0⟩ [] [] 0).1.trader_score = 100 ∧
      "Active Trader" ∈ (computeBehaviorScores (fun _ => none) 0 []
        (List.replicate 21 dummySwap) ⟨0, 0⟩ [] [] 0).2) ∧
    ((List.replicate 20 dummySwap).length = 20 ∧
      (computeBehaviorScores (fun _ => none) 0 [] (List.replicate 20 dummySwap)
        ⟨0, 0⟩ [] [] 0).1.trader_score = 70 ∧
      "Trader" ∈ (computeBehaviorScores (fun _ => none) 0 []
        (List.replicate 20 dummySwap) ⟨0, 0⟩ [] [] 0).2) :=
  ⟨⟨by simp,
    (claim_C8 (fun _ => none) 0 [] (List.replicate 21 dummySwap) ⟨0, 0⟩ [] [] 0).1 (by simp)⟩,
   ⟨by simp,
    (claim_C8 (fun _ => none) 0 [] (List.replicate 20 dummySwap) ⟨0, 0⟩ [] [] 0).2 (by simp)⟩⟩

/- ===================================================================
   Theorems for claim C2 (balance reconstruction example)
   =================================================================== -/

theorem in_ne_out : ("in" : String) ≠ "out" := by decide

/-- C2 counterexample: with current balance 0, isComplete true and the
single inflow of 100 at T, the reconstructed series is [(T, 0), (now, 0)]
and in particular the point at T reports balance 0, not the claimed
100: undoing the inflow drives the running balance to -100, which is
clamped to 0. -/
theorem claim_C2_counterexample :
    ((computeBalanceHistory "0xusdfc" [exT2] 0 true "2024-06-01T00:00:00").map
      (fun p => (p.timestamp, p.balance)) =
      [(some "2024-01-01T00:00:00", 0), (some "2024-06-01T00:00:00", 0)]) ∧
    ((computeBalanceHistory "0xusdfc" [exT2] 0 true "2024-06-01T00:00:00").getD 0
      dummyPoint).balance ≠ 100 := by
  constructor <;>
    norm_num [computeBalanceHistory, balanceWalkStep, exT2, dummyPoint,
      List.insertionSort, List.orderedInsert, in_ne_out, max_def]

/-- C2 amended: for current balance 0, isComplete true and the single
reference-token inflow of 100 at T with no later transfers, the
reconstructor returns the chronological series
[(balance 0 at T, flagged dataComplete = false), (balance 0 at now)]:
undoing the inflow makes the reconstructed prior balance -100, which is
clamped to 0 for display and flagged incomplete. -/
theorem claim_C2 :
    computeBalanceHistory "0xusdfc" [exT2] 0 true "2024-06-01T00:00:00" =
      [⟨some "2024-01-01T00:00:00", 0, "received", false⟩,
       ⟨some "2024-06-01T00:00:00", 0, "current", true⟩] := by
  norm_num [computeBalanceHistory, balanceWalkStep, exT2,
    List.insertionSort, List.orderedInsert, in_ne_out, max_def]

/- ===================================================================
   Theorems for claim C9 (malformed records)
   =================================================================== -/

/-- C9 counterexample: the normalization stage does not drop a record
whose timestamp is missing; the record appears in the stage output with
timestamp None. -/
theorem claim_C9_counterexample :
    (normalizeTransfers "0xb" [] [] [exRaw]).map (fun t => t.timestamp) = [none] ∧
    (normalizeTransfers "0xb" [] [] [exRaw]).length = 1 := by
  constructor <;> simp [normalizeTransfers, exRaw]

/-- C9 amended: the analytics normalization stage emits exactly one
transfer per raw item, never dropping malformed records (their missing
timestamp is carried through as None); a record with a missing or empty
timestamp is silently dropped only by the chart-data ingestion loop of
fetch_balance_chart, which skips it and continues with the rest. -/
theorem claim_C9 :
    (∀ (addr : String) (pools routers : List (String × String))
      (items : List RawTransferItem),
      (normalizeTransfers addr pools routers items).length = items.length ∧
      (normalizeTransfers addr pools routers items).map (fun t => t.timestamp) =
        items.map (fun t => t.timestamp)) ∧
    (∀ (addr usdfc : String) (parseTs : String → Int) (cutoff : Option Int)
      (t : RawTransferItem) (rest : List RawTransferItem),
      t.timestamp.getD "" = "" →
      parseChartTransfers addr usdfc parseTs cutoff (t :: rest) =
        parseChartTransfers addr usdfc parseTs cutoff rest) := by
  constructor
  · intro addr pools routers items
    constructor
    · simp [normalizeTransfers]
    · simp [normalizeTransfers]
  · intro addr usdfc parseTs cutoff t rest h
    by_cases htok : strToLower t.token_address ≠ strToLower usdfc
    · simp [parseChartTransfers, htok]
    · simp [parseChartTransfers, htok, h]

/-- C9 witness: the amended drop rule applied to the concrete raw item
with missing timestamp. -/
theorem claim_C9_witness :
    (exRaw.timestamp.getD "" = "") ∧
    parseChartTransfers "0xb" "0xusdfc" (fun _ => 0) none [exRaw] =
      parseChartTransfers "0xb" "0xusdfc" (fun _ => 0) none [] :=
  ⟨by simp [exRaw],
   claim_C9.2 "0xb" "0xusdfc" (fun _ => 0) none exRaw [] (by simp [exRaw])⟩

/- ===================================================================
   Helper lemmas on the candle fold
   =================================================================== -/

theorem candlesFrom_nonneg (bkts : Int → List TItem) (bs : List Int) (rb : ℚ)
    (c : BalanceCandle) (hc : c ∈ candlesFrom bkts rb bs) :
    0 ≤ c.opn ∧ 0 ≤ c.high ∧ 0 ≤ c.low ∧ 0 ≤ c.close := by
  induction bs generalizing rb with
  | nil => simp [candlesFrom] at hc
  | cons b bs ih =>
    simp only [candlesFrom, List.mem_cons] at hc
    rcases hc with h | h
    · subst h
      refine ⟨le_max_left _ _, le_max_left _ _, le_max_left _ _, le_max_left _ _⟩
    · exact ih _ h

theorem balanceWalk_nonneg (ic : Bool) (l : List Transfer)
    (st : ℚ × List BalancePoint)
    (hst : ∀ p ∈ st.2, 0 ≤ p.balance) :
    ∀ p ∈ (l.foldl (balanceWalkStep ic) st).2, 0 ≤ p.balance := by
  induction l generalizing st with
  | nil => exact hst
  | cons t l ih =>
    apply ih
    intro p hp
    simp only [balanceWalkStep, List.mem_append, List.mem_singleton] at hp
    rcases hp with h | h
    · exact hst p h
    · subst h
      exact le_max_left _ _

/- ===================================================================
   Theorems for claim C4 (non-negativity)
   =================================================================== -/

/-- C4: every OHLC field of every balance candle, and the balance of every
reconstructed balance point, is nonnegative, for every input transfer
list; the current balance fed to the reconstructor is the token balance
read from the chain, which is nonnegative. -/
theorem claim_C4 (usdfc nowIso : String) (transfers : List Transfer)
    (cb : ℚ) (ic : Bool) (trs : List TItem) (r : Resolution)
    (cutoff : Option Int) (now : Int) (hcb : 0 ≤ cb) :
    (∀ p ∈ computeBalanceHistory usdfc transfers cb ic nowIso, 0 ≤ p.balance) ∧
    (∀ c ∈ buildBalanceOhlc trs r cutoff now,
      0 ≤ c.opn ∧ 0 ≤ c.high ∧ 0 ≤ c.low ∧ 0 ≤ c.close) := by
  constructor
  · intro p hp
    unfold computeBalanceHistory at hp
    set flt := transfers.filter
      (fun t => strToLower t.token_address = strToLower usdfc) with hflt
    rcases hfe : flt with _ | ⟨u, us⟩
    · rw [hfe] at hp
      simp only [List.mem_singleton] at hp
      subst hp
      exact hcb
    · rw [hfe] at hp
      simp only [List.mem_reverse] at hp
      refine balanceWalk_nonneg ic _ _ ?_ p hp
      intro q hq
      simp only [List.mem_singleton] at hq
      subst hq
      exact hcb
  · intro c hc
    cases trs with
    | nil => simp [buildBalanceOhlc] at hc
    | cons t ts => exact candlesFrom_nonneg _ _ _ c hc

/-- C4 witness: the conclusion at a concrete instance with current
balance 0. -/
theorem claim_C4_witness :
    (0 : ℚ) ≤ 0 ∧
    ((∀ p ∈ computeBalanceHistory "0xusdfc" [exT2] 0 true "2024-06-01T00:00:00",
        0 ≤ p.balance) ∧
     (∀ c ∈ buildBalanceOhlc exItems6 Resolution.H1 none 39600,
        0 ≤ c.opn ∧ 0 ≤ c.high ∧ 0 ≤ c.low ∧ 0 ≤ c.close)) :=
  ⟨le_refl 0,
   claim_C4 "0xusdfc" "2024-06-01T00:00:00" [exT2] 0 true exItems6
     Resolution.H1 none 39600 (le_refl 0)⟩

/- ===================================================================
   Helper lemmas on the swap classifier
   =================================================================== -/

theorem keysInOrder_foldl_nodup (l : List String) (acc : List String)
    (h : acc.Nodup) :
    (l.foldl (fun acc h => if acc.contains h then acc else acc ++ [h]) acc).Nodup := by
  induction l generalizing acc with
  | nil => exact h
  | cons x l ih =>
    simp only [List.foldl_cons]
    by_cases hx : acc.contains x
    · rw [if_pos hx]
      exact ih acc h
    · rw [if_neg hx]
      refine ih _ ?_
      rw [List.nodup_append]
      refine ⟨h, List.nodup_singleton x, ?_⟩
      intro a ha hmem
      simp only [List.mem_singleton] at hmem
      subst hmem
      exact hx (by simpa using ha)

theorem keysInOrder_nodup (l : List String) : (keysInOrder l).Nodup :=
  keysInOrder_foldl_nodup l [] List.nodup_nil

theorem filterMap_key_sublist {α β γ : Type} (f : α → Option β) (key : β → γ)
    (keyA : α → γ) (hf : ∀ a b, f a = some b → key b = keyA a) (l : List α) :
    ((l.filterMap f).map key).Sublist (l.map keyA) := by
  induction l with
  | nil => simp
  | cons a l ih =>
    rw [List.filterMap_cons]
    cases hfa : f a with
    | none =>
      rw [List.map_cons]
      exact ih.cons (keyA a)
    | some b =>
      rw [List.map_cons, List.map_cons, hf a b hfa]
      exact ih.cons₂ (keyA a)

theorem step1One_hash (transfers : List Transfer) (h : String) (s : SwapRecord)
    (he : step1One transfers h = some s) : s.tx_hash = h := by
  unfold step1One at he
  dsimp only at he
  split at he
  · exact absurd he (by simp)
  · split at he
    · have := Option.some.inj he
      subst this
      rfl
    · exact absurd he (by simp)

theorem method3Step_hashes_nodup (acc : List SwapRecord) (t : Transfer)
    (h : ((acc.map (fun s => s.tx_hash))).Nodup) :
    (((method3Step acc t).map (fun s => s.tx_hash))).Nodup := by
  unfold method3Step
  split
  · split
    · exact h
    · rename_i hany
      rw [List.map_append, List.nodup_append]
      refine ⟨h, by simp, ?_⟩
      intro a ha hmem
      simp only [List.map_cons, List.map_nil, List.mem_singleton] at hmem
      subst hmem
      apply hany
      rw [List.any_eq_true]
      simp only [List.mem_map] at ha
      obtain ⟨s, hs, hkey⟩ := ha
      exact ⟨s, hs, by simp [hkey]⟩
  · exact h

theorem method3_fold_hashes_nodup (l : List Transfer) (acc : List SwapRecord)
    (h : ((acc.map (fun s => s.tx_hash))).Nodup) :
    (((l.foldl method3Step acc).map (fun s => s.tx_hash))).Nodup := by
  induction l generalizing acc with
  | nil => exact h
  | cons t l ih =>
    rw [List.foldl_cons]
    exact ih _ (method3Step_hashes_nodup acc t h)

theorem method3_fold_noop (l : List Transfer) (acc : List SwapRecord)
    (h : ∀ t ∈ l, (acc.any (fun s => s.tx_hash = t.tx_hash)) = true) :
    l.foldl method3Step acc = acc := by
  induction l with
  | nil => rfl
  | cons t l ih =>
    have ht := h t (by simp)
    have hstep : method3Step acc t = acc := by
      simp [method3Step, ht]
    rw [List.foldl_cons, hstep]
    exact ih (fun u hu => h u (by simp [hu]))

theorem keysInOrder_foldl_const (h : String) (l : List String)
    (hall : ∀ x ∈ l, x = h) :
    l.foldl (fun acc x => if acc.contains x then acc else acc ++ [x]) [h] = [h] := by
  induction l with
  | nil => rfl
  | cons x l ih =>
    have hx : x = h := hall x (by simp)
    subst hx
    simp only [List.foldl_cons]
    rw [if_pos (by simp)]
    exact ih (fun y hy => hall y (by simp [hy]))

theorem keysInOrder_const (h : String) (l : List String) (hne : l ≠ [])
    (hall : ∀ x ∈ l, x = h) : keysInOrder l = [h] := by
  obtain ⟨x, xs, rfl⟩ := List.exists_cons_of_ne_nil hne
  have hx : x = h := hall x (by simp)
  have hrest := keysInOrder_foldl_const h xs (fun y hy => hall y (by simp [hy]))
  calc keysInOrder (x :: xs)
      = xs.foldl (fun acc x => if acc.contains x then acc else acc ++ [x]) [x] := by
        simp [keysInOrder]
    _ = [h] := by rw [hx]; exact hrest

/- ===================================================================
   Theorems for claim C1 (no duplicate tx hashes)
   =================================================================== -/

/-- C1 counterexample: with no transfers and a router-interaction list
that repeats one hash, method 2 emits two records with the same hash: the
source takes its snapshot of resolved hashes once, before the loop, so a
repeated router interaction is not deduplicated. -/
theorem claim_C1_counterexample :
    ((detectSwaps "0xsubject" [] [exRI, exRI]).map (fun s => s.tx_hash) =
      ["0xhh", "0xhh"]) ∧
    ¬ ((detectSwaps "0xsubject" [] [exRI, exRI]).map (fun s => s.tx_hash)).Nodup := by
  constructor <;> decide

/-- C1 amended: whenever the router-interaction list itself carries no
duplicate transaction hash - as is the case for the list built by
fetch_address_transactions from distinct transactions - no two swap
records returned by detect_swaps share a tx_hash, for every transfer
list. -/
theorem claim_C1 (addr : String) (transfers : List Transfer)
    (ris : List RouterInteraction)
    (hris : ((ris.map (fun ri => ri.tx_hash))).Nodup) :
    (((detectSwaps addr transfers ris).map (fun s => s.tx_hash))).Nodup := by
  unfold detectSwaps
  apply method3_fold_hashes_nodup
  rw [List.map_append, List.nodup_append]
  refine ⟨?_, ?_, ?_⟩
  · have hsub := filterMap_key_sublist (step1One transfers)
      (fun s => s.tx_hash) (fun k => k)
      (fun a b hb => step1One_hash transfers a b hb)
      (keysInOrder (transfers.map (fun t => t.tx_hash)))
    rw [List.map_id'] at hsub
    exact hsub.nodup (keysInOrder_nodup _)
  · have hsub := filterMap_key_sublist
      (fun ri : RouterInteraction =>
        if (((keysInOrder (transfers.map (fun t => t.tx_hash))).filterMap
              (step1One transfers)).map (fun s => s.tx_hash)).contains ri.tx_hash
        then none
        else some (⟨ri.timestamp, ri.tx_hash, "router_interaction",
          "UNKNOWN", "UNKNOWN", 0, 0, some ri.router, none⟩ : SwapRecord))
      (fun s => s.tx_hash) (fun ri => ri.tx_hash) ?_ ris
    · exact hsub.nodup hris
    · intro a b hb
      dsimp only at hb
      split at hb
      · exact absurd hb (by simp)
      · have := Option.some.inj hb
        subst this
        rfl
  · intro a ha hb
    simp only [List.mem_map, List.mem_filterMap] at hb
    obtain ⟨s, ⟨ri, _hri, hg⟩, hkey⟩ := hb
    split at hg
    · exact absurd hg (by simp)
    · rename_i hc
      have := Option.some.inj hg
      subst this
      apply hc
      simp only at hkey
      rw [hkey]
      simpa using ha

/-- C1 witness: the amended uniqueness applied to a concrete input with a
single router interaction. -/
theorem claim_C1_witness :
    (([exRI].map (fun ri => ri.tx_hash))).Nodup ∧
    (((detectSwaps "0xsubject" [] [exRI]).map (fun s => s.tx_hash))).Nodup :=
  ⟨by decide, claim_C1 "0xsubject" [] [exRI] (by decide)⟩

theorem step1One_single (h : String) (transfers : List Transfer)
    (hne : h ≠ "") (hlen : 2 ≤ transfers.length)
    (hall : ∀ t ∈ transfers, t.tx_hash = h)
    (tin0 : Transfer) (tinRest : List Transfer)
    (htin : transfers.filter (fun t => t.direction = "in") = tin0 :: tinRest)
    (tout0 : Transfer) (toutRest : List Transfer)
    (htout : transfers.filter (fun t => t.direction = "out") = tout0 :: toutRest) :
    step1One transfers h = some ⟨(maxByAmount tout0 toutRest).timestamp, h,
      (if (tout0 :: toutRest).any (fun t => t.token_symbol = "USDFC") then "sell"
       else if (tin0 :: tinRest).any (fun t => t.token_symbol = "USDFC") then "buy"
       else "other"),
      (maxByAmount tin0 tinRest).token_symbol,
      (maxByAmount tout0 toutRest).token_symbol,
      (maxByAmount tin0 tinRest).amount,
      (maxByAmount tout0 toutRest).amount,
      (match transfers.find? (fun t => strContains t.contract_type "router:") with
       | some t => some (t.contract_type.replace "router:" "")
       | none => none),
      none⟩ := by
  have hgroup : transfers.filter (fun t => t.tx_hash = h) = transfers :=
    List.filter_eq_self.mpr (fun a ha => by simp [hall a ha])
  unfold step1One
  dsimp only
  rw [hgroup, htin, htout]
  rw [if_neg (by push_neg; exact ⟨by omega, hne⟩)]

/- ===================================================================
   Theorems for claim C5 (swap classification)
   =================================================================== -/

/-- C5: a transaction whose grouped events are exactly
[in USDFC 100, out WFIL 50] yields exactly one swap record buy / USDFC in
/ WFIL out / 100 in / 50 out; and in general, for a transaction group with
at least one inbound and one outbound leg, step 1 classifies sell when an
outbound leg carries the reference token, else buy when an inbound leg
does, else other. -/
theorem claim_C5 :
    (detectSwaps "0xsubject" [exTIn, exTOut] [] = [exSwapBuy]) ∧
    (∀ (addr h : String) (transfers : List Transfer),
      h ≠ "" → 2 ≤ transfers.length → (∀ t ∈ transfers, t.tx_hash = h) →
      transfers.filter (fun t => t.direction = "in") ≠ [] →
      transfers.filter (fun t => t.direction = "out") ≠ [] →
      ∃ rec : SwapRecord, detectSwaps addr transfers [] = [rec] ∧
        rec.tx_hash = h ∧
        rec.swap_type =
          (if (transfers.filter (fun t => t.direction = "out")).any
              (fun t => t.token_symbol = "USDFC") then "sell"
           else if (transfers.filter (fun t => t.direction = "in")).any
              (fun t => t.token_symbol = "USDFC") then "buy"
           else "other")) := by
  constructor
  · decide
  · intro addr h transfers hne hlen hall hin hout
    obtain ⟨tin0, tinRest, htin⟩ := List.exists_cons_of_ne_nil hin
    obtain ⟨tout0, toutRest, htout⟩ := List.exists_cons_of_ne_nil hout
    have hsome :=
      step1One_single h transfers hne hlen hall tin0 tinRest htin tout0 toutRest htout
    set rec : SwapRecord := ⟨(maxByAmount tout0 toutRest).timestamp, h,
      (if (tout0 :: toutRest).any (fun t => t.token_symbol = "USDFC") then "sell"
       else if (tin0 :: tinRest).any (fun t => t.token_symbol = "USDFC") then "buy"
       else "other"),
      (maxByAmount tin0 tinRest).token_symbol,
      (maxByAmount tout0 toutRest).token_symbol,
      (maxByAmount tin0 tinRest).amount,
      (maxByAmount tout0 toutRest).amount,
      (match transfers.find? (fun t => strContains t.contract_type "router:") with
       | some t => some (t.contract_type.replace "router:" "")
       | none => none),
      none⟩ with hrec
    have hhash : rec.tx_hash = h := rfl
    have hty : rec.swap_type =
        (if (tout0 :: toutRest).any (fun t => t.token_symbol = "USDFC") then "sell"
         else if (tin0 :: tinRest).any (fun t => t.token_symbol = "USDFC") then "buy"
         else "other") := rfl
    have htne : transfers ≠ [] := by
      intro hmt
      rw [hmt] at hlen
      simp at hlen
    have hkeys : keysInOrder (transfers.map (fun t => t.tx_hash)) = [h] := by
      apply keysInOrder_const
      · simpa using htne
      · intro x hx
        obtain ⟨t, ht, rfl⟩ := List.mem_map.mp hx
        exact hall t ht
    refine ⟨rec, ?_, hhash, by rw [hty, htin, htout]⟩
    unfold detectSwaps
    dsimp only
    rw [hkeys, List.filterMap_cons, hsome]
    simp only [List.filterMap_nil, List.append_nil]
    exact method3_fold_noop transfers [rec]
      (fun t ht => by simp [hhash, hall t ht])

/-- C5 witness: the general classification rule applied to the concrete
two-leg transaction. -/
theorem claim_C5_witness :
    (("0xh1" : String) ≠ "" ∧ 2 ≤ ([exTIn, exTOut] : List Transfer).length) ∧
    (∃ rec : SwapRecord, detectSwaps "0xsubject" [exTIn, exTOut] [] = [rec] ∧
      rec.tx_hash = "0xh1" ∧
      rec.swap_type =
        (if (([exTIn, exTOut] : List Transfer).filter
            (fun t => t.direction = "out")).any
            (fun t => t.token_symbol = "USDFC") then "sell"
         else if (([exTIn, exTOut] : List Transfer).filter
            (fun t => t.direction = "in")).any
            (fun t => t.token_symbol = "USDFC") then "buy"
         else "other")) :=
  ⟨⟨by decide, by decide⟩,
   claim_C5.2 "0xsubject" "0xh1" [exTIn, exTOut] (by decide) (by decide)
     (by decide) (by decide) (by decide)⟩

/- ===================================================================
   Helper lemmas on the inner candle fold
   =================================================================== -/

theorem foldl_add_amount (ts : List TItem) (a : ℚ) :
    ts.foldl (fun a t => a + t.amount) a = a + sumAmt ts := by
  induction ts generalizing a with
  | nil => simp [sumAmt]
  | cons t ts ih =>
    rw [List.foldl_cons, ih]
    have h2 : sumAmt (t :: ts) = (0 + t.amount) + sumAmt ts := by
      rw [sumAmt, List.foldl_cons, ih]
    rw [h2]
    ring

theorem foldl_add_abs (ts : List TItem) (a : ℚ) :
    ts.foldl (fun a t => a + t.absAmount) a = a + sumAbs ts := by
  induction ts generalizing a with
  | nil => simp [sumAbs]
  | cons t ts ih =>
    rw [List.foldl_cons, ih]
    have h2 : sumAbs (t :: ts) = (0 + t.absAmount) + sumAbs ts := by
      rw [sumAbs, List.foldl_cons, ih]
    rw [h2]
    ring

theorem applyBucket_eq (ts : List TItem) (rb : ℚ) :
    applyBucket ts rb = rb + sumAmt ts :=
  foldl_add_amount ts rb

theorem sumAmt_cons (t : TItem) (ts : List TItem) :
    sumAmt (t :: ts) = t.amount + sumAmt ts := by
  rw [sumAmt, List.foldl_cons, foldl_add_amount]
  ring

theorem sumAbs_cons (t : TItem) (ts : List TItem) :
    sumAbs (t :: ts) = t.absAmount + sumAbs ts := by
  rw [sumAbs, List.foldl_cons, foldl_add_abs]
  ring

theorem innerFold_aux (ts : List TItem) (s : BState) :
    (ts.foldl
      (fun s t =>
        let rb := s.rb + t.amount
        (⟨rb, max s.high rb, min s.low rb, s.volume + t.absAmount,
          s.net + t.amount⟩ : BState)) s) =
    ⟨s.rb + sumAmt ts,
      (ts.foldl
        (fun s t =>
          let rb := s.rb + t.amount
          (⟨rb, max s.high rb, min s.low rb, s.volume + t.absAmount,
            s.net + t.amount⟩ : BState)) s).high,
      (ts.foldl
        (fun s t =>
          let rb := s.rb + t.amount
          (⟨rb, max s.high rb, min s.low rb, s.volume + t.absAmount,
            s.net + t.amount⟩ : BState)) s).low,
      s.volume + sumAbs ts, s.net + sumAmt ts⟩ := by
  induction ts generalizing s with
  | nil => simp [sumAmt, sumAbs]
  | cons t ts ih =>
    rw [List.foldl_cons]
    dsimp only
    rw [ih]
    rw [sumAmt_cons, sumAbs_cons]
    congr 1 <;> dsimp only <;> ring

theorem innerFold_rb (ts : List TItem) (rb : ℚ) :
    (innerFold ts rb).rb = rb + sumAmt ts := by
  rw [innerFold, innerFold_aux]

theorem innerFold_volume (ts : List TItem) (rb : ℚ) :
    (innerFold ts rb).volume = sumAbs ts := by
  rw [innerFold, innerFold_aux]
  dsimp only
  ring

theorem innerFold_net (ts : List TItem) (rb : ℚ) :
    (innerFold ts rb).net = sumAmt ts := by
  rw [innerFold, innerFold_aux]
  dsimp only
  ring

theorem candlesFrom_length (bkts : Int → List TItem) (bs : List Int) (rb : ℚ) :
    (candlesFrom bkts rb bs).length = bs.length := by
  induction bs generalizing rb with
  | nil => rfl
  | cons b bs ih =>
    rw [candlesFrom]
    simp only [List.length_cons, ih]

theorem candlesFrom_cons (bkts : Int → List TItem) (rb : ℚ) (b : Int)
    (bs : List Int) :
    candlesFrom bkts rb (b :: bs) =
      ⟨b, max 0 rb, max 0 (innerFold (bkts b) rb).high,
        max 0 (innerFold (bkts b) rb).low, max 0 (innerFold (bkts b) rb).rb,
        (innerFold (bkts b) rb).volume, (bkts b).length,
        (innerFold (bkts b) rb).net⟩ ::
      candlesFrom bkts (innerFold (bkts b) rb).rb bs := rfl

theorem candlesFrom_consec (bkts : Int → List TItem) (bs : List Int) :
    ∀ (rb : ℚ) (i : ℕ), i + 1 < (candlesFrom bkts rb bs).length →
      ((candlesFrom bkts rb bs).getD (i+1) dummyCandle).tx_count = 0 →
      ((candlesFrom bkts rb bs).getD (i+1) dummyCandle).opn =
        ((candlesFrom bkts rb bs).getD i dummyCandle).close ∧
      ((candlesFrom bkts rb bs).getD (i+1) dummyCandle).high =
        ((candlesFrom bkts rb bs).getD i dummyCandle).close ∧
      ((candlesFrom bkts rb bs).getD (i+1) dummyCandle).low =
        ((candlesFrom bkts rb bs).getD i dummyCandle).close ∧
      ((candlesFrom bkts rb bs).getD (i+1) dummyCandle).close =
        ((candlesFrom bkts rb bs).getD i dummyCandle).close ∧
      ((candlesFrom bkts rb bs).getD (i+1) dummyCandle).volume = 0 := by
  induction bs with
  | nil =>
    intro rb i h
    rw [candlesFrom] at h
    simp at h
  | cons b bs ih =>
    intro rb i h hemp
    rw [candlesFrom_cons] at h hemp ⊢
    match i with
    | 0 =>
      cases bs with
      | nil =>
        rw [candlesFrom] at h
        simp at h
      | cons b2 bs2 =>
        rw [List.getD_cons_succ] at hemp ⊢
        rw [candlesFrom_cons] at hemp ⊢
        rw [List.getD_cons_zero] at hemp ⊢
        have hb2 : bkts b2 = [] := List.length_eq_zero.mp hemp
        rw [hb2]
        exact ⟨rfl, rfl, rfl, rfl, rfl⟩
    | (j+1) =>
      rw [List.getD_cons_succ] at hemp
      rw [List.getD_cons_succ, List.getD_cons_succ]
      exact ih (innerFold (bkts b) rb).rb j (by simpa using h) hemp

/- ===================================================================
   Theorems for claim C6 (gap filling)
   =================================================================== -/

/-- C6: for the hourly events +10 at 09:00 and -4 at 11:00 with nothing at
10:00, the 10:00 candle is the carried-forward flat candle and the 11:00
candle is open 10 / high 10 / low 6 / close 6 / volume 4 / one
transaction / net change -4; and in general every empty bucket after the
first appears with open, high, low and close equal to the previous
candle close, zero volume and zero transaction count. -/
theorem claim_C6 :
    ((buildBalanceOhlc exItems6 Resolution.H1 none 39600).getD 1 dummyCandle =
      ⟨36000, 10, 10, 10, 10, 0, 0, 0⟩) ∧
    ((buildBalanceOhlc exItems6 Resolution.H1 none 39600).getD 2 dummyCandle =
      ⟨39600, 10, 10, 6, 6, 4, 1, -4⟩) ∧
    (∀ (transfers : List TItem) (r : Resolution) (cutoff : Option Int)
      (now : Int) (i : ℕ),
      i + 1 < (buildBalanceOhlc transfers r cutoff now).length →
      ((buildBalanceOhlc transfers r cutoff now).getD (i+1) dummyCandle).tx_count = 0 →
      ((buildBalanceOhlc transfers r cutoff now).getD (i+1) dummyCandle).opn =
        ((buildBalanceOhlc transfers r cutoff now).getD i dummyCandle).close ∧
      ((buildBalanceOhlc transfers r cutoff now).getD (i+1) dummyCandle).high =
        ((buildBalanceOhlc transfers r cutoff now).getD i dummyCandle).close ∧
      ((buildBalanceOhlc transfers r cutoff now).getD (i+1) dummyCandle).low =
        ((buildBalanceOhlc transfers r cutoff now).getD i dummyCandle).close ∧
      ((buildBalanceOhlc transfers r cutoff now).getD (i+1) dummyCandle).close =
        ((buildBalanceOhlc transfers r cutoff now).getD i dummyCandle).close ∧
      ((buildBalanceOhlc transfers r cutoff now).getD (i+1) dummyCandle).volume = 0) := by
  have hbl : bucketListOf exItems6 Resolution.H1 39600 = [32400, 36000, 39600] := by
    decide
  have hb1 : bucketsOf exItems6 Resolution.H1 32400 = [⟨32400, 10, 10⟩] := by decide
  have hb2 : bucketsOf exItems6 Resolution.H1 36000 = [] := by decide
  have hb3 : bucketsOf exItems6 Resolution.H1 39600 = [⟨39600, -4, 4⟩] := by decide
  have hmain : buildBalanceOhlc exItems6 Resolution.H1 none 39600 =
      candlesFrom (bucketsOf exItems6 Resolution.H1) 0 [32400, 36000, 39600] := by
    rw [← hbl]
    rfl
  refine ⟨?_, ?_, ?_⟩
  · rw [hmain]
    norm_num [candlesFrom_cons, hb1, hb2, hb3, innerFold, max_def, min_def]
  · rw [hmain]
    norm_num [candlesFrom_cons, hb1, hb2, hb3, innerFold, max_def, min_def]
  · intro transfers r cutoff now i h hemp
    cases transfers with
    | nil => simp [buildBalanceOhlc] at h
    | cons t ts =>
      have heq : buildBalanceOhlc (t :: ts) r cutoff now =
          candlesFrom (bucketsOf (t :: ts) r) 0 (bucketListOf (t :: ts) r now) := rfl
      rw [heq] at h hemp ⊢
      exact candlesFrom_consec _ _ 0 i h hemp

/-- C6 witness: the gap-fill rule applied at the concrete empty 10:00
bucket of the hourly example. -/
theorem claim_C6_witness :
    (0 + 1 < (buildBalanceOhlc exItems6 Resolution.H1 none 39600).length ∧
      ((buildBalanceOhlc exItems6 Resolution.H1 none 39600).getD (0+1)
        dummyCandle).tx_count = 0) ∧
    ((buildBalanceOhlc exItems6 Resolution.H1 none 39600).getD (0+1)
        dummyCandle).opn =
      ((buildBalanceOhlc exItems6 Resolution.H1 none 39600).getD 0
        dummyCandle).close :=
  ⟨⟨by decide, by decide⟩,
   (claim_C6.2.2 exItems6 Resolution.H1 none 39600 0 (by decide) (by decide)).1⟩

/- ===================================================================
   Theorems for claim C7 (netChange versus close minus open)
   =================================================================== -/

theorem rawBalances_getD_zero (bkts : Int → List TItem) (rb : ℚ) (bs : List Int) :
    (rawBalances bkts rb bs).getD 0 0 = rb := by
  cases bs <;> rfl

theorem candlesFrom_raw (bkts : Int → List TItem) (bs : List Int) :
    ∀ (rb : ℚ) (i : ℕ), i < (candlesFrom bkts rb bs).length →
      (((candlesFrom bkts rb bs).getD i dummyCandle).net_change =
        (rawBalances bkts rb bs).getD (i+1) 0 -
          (rawBalances bkts rb bs).getD i 0) ∧
      (((candlesFrom bkts rb bs).getD i dummyCandle).opn =
        max 0 ((rawBalances bkts rb bs).getD i 0)) ∧
      (((candlesFrom bkts rb bs).getD i dummyCandle).close =
        max 0 ((rawBalances bkts rb bs).getD (i+1) 0)) := by
  induction bs with
  | nil =>
    intro rb i h
    rw [candlesFrom] at h
    simp at h
  | cons b bs ih =>
    intro rb i h
    rw [candlesFrom_cons] at h ⊢
    rw [rawBalances]
    match i with
    | 0 =>
      simp only [List.getD_cons_zero, List.getD_cons_succ]
      refine ⟨?_, ?_, ?_⟩
      · rw [rawBalances_getD_zero, innerFold_net, applyBucket_eq]
        ring
      · trivial
      · rw [rawBalances_getD_zero, innerFold_rb, applyBucket_eq]
    | (j+1) =>
      simp only [List.getD_cons_succ]
      have hrw : applyBucket (bkts b) rb = (innerFold (bkts b) rb).rb := by
        rw [innerFold_rb, applyBucket_eq]
      rw [hrw]
      exact ih (innerFold (bkts b) rb).rb j (by simpa using h)

/-- C7 counterexample: a single outflow of 5 from a zero balance gives a
candle with netChange -5 while close - open = 0 - 0 = 0: the clamp hides
the negative excursion from close and open but not from netChange. -/
theorem claim_C7_counterexample :
    ((buildBalanceOhlc [⟨0, -5, 5⟩] Resolution.H1 none 0).map
      (fun c => (c.net_change, c.close - c.opn)) = [(-5, 0)]) ∧
    ((-5 : ℚ) ≠ 0) := by
  have hbl : bucketListOf [⟨0, -5, 5⟩] Resolution.H1 0 = [0] := by decide
  have hb1 : bucketsOf [⟨0, -5, 5⟩] Resolution.H1 0 = [⟨0, -5, 5⟩] := by decide
  have hmain : buildBalanceOhlc [⟨0, -5, 5⟩] Resolution.H1 none 0 =
      candlesFrom (bucketsOf [⟨0, -5, 5⟩] Resolution.H1) 0 [0] := by
    rw [← hbl]
    rfl
  constructor
  · rw [hmain]
    norm_num [candlesFrom_cons, candlesFrom, hb1, innerFold, max_def, min_def]
  · norm_num

/-- C7 amended: every candle satisfies netChange = rawClose - rawOpen on
the unclamped running balances at its bucket boundaries (the values before
the nonnegativity clamp); consequently netChange = close - open holds for
the reported fields exactly when both boundary balances are nonnegative,
but not in general. -/
theorem claim_C7 (transfers : List TItem) (r : Resolution) (cutoff : Option Int)
    (now : Int) (i : ℕ)
    (h : i < (buildBalanceOhlc transfers r cutoff now).length) :
    (((buildBalanceOhlc transfers r cutoff now).getD i dummyCandle).net_change =
      (rawBalances (bucketsOf transfers r) 0 (bucketListOf transfers r now)).getD (i+1) 0 -
      (rawBalances (bucketsOf transfers r) 0 (bucketListOf transfers r now)).getD i 0) ∧
    (0 ≤ (rawBalances (bucketsOf transfers r) 0 (bucketListOf transfers r now)).getD i 0 →
     0 ≤ (rawBalances (bucketsOf transfers r) 0 (bucketListOf transfers r now)).getD (i+1) 0 →
      ((buildBalanceOhlc transfers r cutoff now).getD i dummyCandle).net_change =
        ((buildBalanceOhlc transfers r cutoff now).getD i dummyCandle).close -
        ((buildBalanceOhlc transfers r cutoff now).getD i dummyCandle).opn) := by
  cases transfers with
  | nil => simp [buildBalanceOhlc] at h
  | cons t ts =>
    have heq : buildBalanceOhlc (t :: ts) r cutoff now =
        candlesFrom (bucketsOf (t :: ts) r) 0 (bucketListOf (t :: ts) r now) := rfl
    rw [heq] at h ⊢
    obtain ⟨hnet, hopn, hclose⟩ := candlesFrom_raw _ _ 0 i h
    refine ⟨hnet, fun h0 h1 => ?_⟩
    rw [hnet, hopn, hclose, max_eq_right h0, max_eq_right h1]

/-- C7 witness: the amended relation evaluated at a single inflow of 5,
where no clamping occurs. -/
theorem claim_C7_witness :
    (0 < (buildBalanceOhlc [⟨0, 5, 5⟩] Resolution.H1 none 0).length) ∧
    ((((buildBalanceOhlc [⟨0, 5, 5⟩] Resolution.H1 none 0).getD 0
        dummyCandle).net_change =
      (rawBalances (bucketsOf [⟨0, 5, 5⟩] Resolution.H1) 0
        (bucketListOf [⟨0, 5, 5⟩] Resolution.H1 0)).getD 1 0 -
      (rawBalances (bucketsOf [⟨0, 5, 5⟩] Resolution.H1) 0
        (bucketListOf [⟨0, 5, 5⟩] Resolution.H1 0)).getD 0 0) ∧
    (0 ≤ (rawBalances (bucketsOf [⟨0, 5, 5⟩] Resolution.H1) 0
        (bucketListOf [⟨0, 5, 5⟩] Resolution.H1 0)).getD 0 0 →
     0 ≤ (rawBalances (bucketsOf [⟨0, 5, 5⟩] Resolution.H1) 0
        (bucketListOf [⟨0, 5, 5⟩] Resolution.H1 0)).getD 1 0 →
      (((buildBalanceOhlc [⟨0, 5, 5⟩] Resolution.H1 none 0).getD 0
          dummyCandle).net_change =
        ((buildBalanceOhlc [⟨0, 5, 5⟩] Resolution.H1 none 0).getD 0
          dummyCandle).close -
        ((buildBalanceOhlc [⟨0, 5, 5⟩] Resolution.H1 none 0).getD 0
          dummyCandle).opn))) :=
  ⟨by decide,
   claim_C7 [⟨0, 5, 5⟩] Resolution.H1 none 0 0 (by decide)⟩

/- ===================================================================
   Helper lemmas for the lookback-extension analysis (claim C3)
   =================================================================== -/

theorem foldl_min_le_init (l : List Int) (a : Int) : l.foldl min a ≤ a := by
  induction l generalizing a with
  | nil => simp
  | cons x l ih =>
    rw [List.foldl_cons]
    exact le_trans (ih (min a x)) (min_le_left a x)

theorem foldl_min_le_mem (l : List Int) (a x : Int) (hx : x ∈ l) :
    l.foldl min a ≤ x := by
  induction l generalizing a with
  | nil => simp at hx
  | cons y l ih =>
    rw [List.foldl_cons]
    rcases List.mem_cons.mp hx with h | h
    · subst h
      exact le_trans (foldl_min_le_init _ _) (min_le_right a x)
    · exact ih _ h

theorem foldl_min_choice (l : List Int) (a : Int) :
    l.foldl min a = a ∨ l.foldl min a ∈ l := by
  induction l generalizing a with
  | nil => left; rfl
  | cons x l ih =>
    rw [List.foldl_cons]
    rcases ih (min a x) with h | h
    · rcases min_choice a x with hm | hm
      · left; rw [h, hm]
      · right
        rw [h, hm]
        exact List.mem_cons_self _ _
    · right
      exact List.mem_cons_of_mem _ h

theorem foldl_max_init_le (l : List Int) (a : Int) : a ≤ l.foldl max a := by
  induction l generalizing a with
  | nil => simp
  | cons x l ih =>
    rw [List.foldl_cons]
    exact le_trans (le_max_left a x) (ih (max a x))

theorem foldl_max_mem_le (l : List Int) (a x : Int) (hx : x ∈ l) :
    x ≤ l.foldl max a := by
  induction l generalizing a with
  | nil => simp at hx
  | cons y l ih =>
    rw [List.foldl_cons]
    rcases List.mem_cons.mp hx with h | h
    · subst h
      exact le_trans (le_max_right a x) (foldl_max_init_le _ _)
    · exact ih _ h

theorem foldl_max_choice (l : List Int) (a : Int) :
    l.foldl max a = a ∨ l.foldl max a ∈ l := by
  induction l generalizing a with
  | nil => left; rfl
  | cons x l ih =>
    rw [List.foldl_cons]
    rcases ih (max a x) with h | h
    · rcases max_choice a x with hm | hm
      · left; rw [h, hm]
      · right
        rw [h, hm]
        exact List.mem_cons_self _ _
    · right
      exact List.mem_cons_of_mem _ h

theorem firstBucket_le (l : List TItem) (r : Resolution) (x : TItem)
    (hx : x ∈ l) : firstBucket l r ≤ roundRes x.timestamp r := by
  cases l with
  | nil => simp at hx
  | cons t ts =>
    simp only [firstBucket]
    rcases List.mem_cons.mp hx with h | h
    · subst h
      exact foldl_min_le_init _ _
    · exact foldl_min_le_mem _ _ _ (List.mem_map_of_mem _ h)

theorem firstBucket_mem (l : List TItem) (r : Resolution) (hne : l ≠ []) :
    ∃ x ∈ l, firstBucket l r = roundRes x.timestamp r := by
  cases l with
  | nil => exact absurd rfl hne
  | cons t ts =>
    simp only [firstBucket]
    rcases foldl_min_choice (ts.map (fun x => roundRes x.timestamp r))
        (roundRes t.timestamp r) with h | h
    · exact ⟨t, by simp, h⟩
    · obtain ⟨x, hx, hxe⟩ := List.mem_map.mp h
      exact ⟨x, by simp [hx], hxe.symm⟩

theorem lastBucket_ge (l : List TItem) (r : Resolution) (x : TItem)
    (hx : x ∈ l) : roundRes x.timestamp r ≤ lastBucket l r := by
  cases l with
  | nil => simp at hx
  | cons t ts =>
    simp only [lastBucket]
    rcases List.mem_cons.mp hx with h | h
    · subst h
      exact foldl_max_init_le _ _
    · exact foldl_max_mem_le _ _ _ (List.mem_map_of_mem _ h)

theorem lastBucket_mem (l : List TItem) (r : Resolution) (hne : l ≠ []) :
    ∃ x ∈ l, lastBucket l r = roundRes x.timestamp r := by
  cases l with
  | nil => exact absurd rfl hne
  | cons t ts =>
    simp only [lastBucket]
    rcases foldl_max_choice (ts.map (fun x => roundRes x.timestamp r))
        (roundRes t.timestamp r) with h | h
    · exact ⟨t, by simp, h⟩
    · obtain ⟨x, hx, hxe⟩ := List.mem_map.mp h
      exact ⟨x, by simp [hx], hxe.symm⟩

theorem genTimeBuckets_eq (s endT : Int) (r : Resolution) (q : ℕ)
    (hs : roundRes s r = s) (he : roundRes endT r = s + stepSec r * q) :
    genTimeBuckets s endT r =
      (List.range (q + 1)).map (fun i : ℕ => s + stepSec r * (i : Int)) := by
  have hst := stepSec_pos r
  have hq0 : (0 : Int) ≤ stepSec r * q :=
    mul_nonneg (le_of_lt hst) (by positivity)
  unfold genTimeBuckets
  rw [hs, he]
  rw [if_neg (by omega)]
  congr 2
  have h1 : (s + stepSec r * q - s) = stepSec r * q := by ring
  rw [h1]
  have h2 : (stepSec r * (q : Int)).toNat = (stepSec r).toNat * q := by
    have hcast : ((stepSec r * (q : Int)).toNat : Int) =
        (((stepSec r).toNat * q : ℕ) : Int) := by
      rw [Int.toNat_of_nonneg hq0]
      push_cast [Int.toNat_of_nonneg (le_of_lt hst)]
      ring
    exact_mod_cast hcast
  rw [h2, Nat.mul_div_cancel_left _ (by omega)]

theorem candlesFrom_append (bkts : Int → List TItem) (l₁ l₂ : List Int)
    (rb : ℚ) :
    candlesFrom bkts rb (l₁ ++ l₂) =
      candlesFrom bkts rb l₁ ++ candlesFrom bkts (rbAfter bkts rb l₁) l₂ := by
  induction l₁ generalizing rb with
  | nil => simp [candlesFrom, rbAfter]
  | cons b l₁ ih =>
    rw [List.cons_append, candlesFrom_cons, candlesFrom_cons, ih]
    have hrb : rbAfter bkts rb (b :: l₁) =
        rbAfter bkts (innerFold (bkts b) rb).rb l₁ := by
      have : applyBucket (bkts b) rb = (innerFold (bkts b) rb).rb := by
        rw [innerFold_rb, applyBucket_eq]
      rw [rbAfter, List.foldl_cons, this, ← rbAfter]
    rw [hrb, List.cons_append]

theorem candlesFrom_proj (bkts bkts2 : Int → List TItem) (bs : List Int) :
    ∀ (rb rb2 : ℚ), (∀ b ∈ bs, bkts b = bkts2 b) →
    (candlesFrom bkts rb bs).map
        (fun c => (c.time, c.volume, c.tx_count, c.net_change)) =
      (candlesFrom bkts2 rb2 bs).map
        (fun c => (c.time, c.volume, c.tx_count, c.net_change)) := by
  induction bs with
  | nil => intro rb rb2 _; rfl
  | cons b bs ih =>
    intro rb rb2 hb
    rw [candlesFrom_cons, candlesFrom_cons, List.map_cons, List.map_cons]
    have hbb : bkts b = bkts2 b := hb b (by simp)
    congr 1
    · rw [hbb, innerFold_volume, innerFold_volume, innerFold_net, innerFold_net]
    · exact ih _ _ (fun b2 hb2 => hb b2 (by simp [hb2]))

theorem candlesFrom_times (bkts : Int → List TItem) (bs : List Int) (rb : ℚ) :
    (candlesFrom bkts rb bs).map (fun c => c.time) = bs := by
  induction bs generalizing rb with
  | nil => rfl
  | cons b bs ih =>
    rw [candlesFrom_cons, List.map_cons, ih]

theorem bucketsOf_append (Eadd E : List TItem) (r : Resolution) (b : Int)
    (h : ∀ e ∈ Eadd, roundRes e.timestamp r ≠ b) :
    bucketsOf (Eadd ++ E) r b = bucketsOf E r b := by
  unfold bucketsOf
  rw [List.filter_append]
  rw [List.filter_eq_nil_iff.mpr (fun e he => by simp [h e he])]
  rw [List.nil_append]

theorem buildBalanceOhlc_ne_nil (l : List TItem) (r : Resolution)
    (c : Option Int) (now : Int) (hne : l ≠ []) :
    buildBalanceOhlc l r c now =
      candlesFrom (bucketsOf l r) 0 (bucketListOf l r now) := by
  cases l with
  | nil => exact absurd rfl hne
  | cons t ts => rfl

/- ===================================================================
   Theorems for claim C3 (lookback extension)
   =================================================================== -/

/-- C3 counterexample: with resolution H1, now = 7200 and lookback cutoff
3600, the run over the in-window event +10 at 7200 gives the 7200-candle
open 0 close 10, while the run additionally containing the older event +5
at 0 (before the cutoff) gives the 7200-candle open 5 close 15: the candle
whose bucket lies within the original window is not identical between the
runs, because the added older events shift the running balance entering
the window. -/
theorem claim_C3_counterexample :
    ((buildBalanceOhlc [⟨7200, 10, 10⟩] Resolution.H1 (some 3600) 7200).map
      (fun c => (c.time, c.opn, c.close)) = [(7200, 0, 10)]) ∧
    ((buildBalanceOhlc [⟨0, 5, 5⟩, ⟨7200, 10, 10⟩] Resolution.H1 (some 3600)
        7200).map (fun c => (c.time, c.opn, c.close)) =
      [(0, 0, 5), (3600, 5, 5), (7200, 5, 15)]) ∧
    (((buildBalanceOhlc [⟨0, 5, 5⟩, ⟨7200, 10, 10⟩] Resolution.H1 (some 3600)
        7200).getD 2 dummyCandle).time =
      ((buildBalanceOhlc [⟨7200, 10, 10⟩] Resolution.H1 (some 3600)
        7200).getD 0 dummyCandle).time) ∧
    (((buildBalanceOhlc [⟨0, 5, 5⟩, ⟨7200, 10, 10⟩] Resolution.H1 (some 3600)
        7200).getD 2 dummyCandle).opn ≠
      ((buildBalanceOhlc [⟨7200, 10, 10⟩] Resolution.H1 (some 3600)
        7200).getD 0 dummyCandle).opn) := by
  have hblA : bucketListOf [⟨7200, 10, 10⟩] Resolution.H1 7200 = [7200] := by
    decide
  have hbA : bucketsOf [⟨7200, 10, 10⟩] Resolution.H1 7200 = [⟨7200, 10, 10⟩] := by
    decide
  have hblB : bucketListOf [⟨0, 5, 5⟩, ⟨7200, 10, 10⟩] Resolution.H1 7200 =
      [0, 3600, 7200] := by decide
  have hB0 : bucketsOf [⟨0, 5, 5⟩, ⟨7200, 10, 10⟩] Resolution.H1 0 =
      [⟨0, 5, 5⟩] := by decide
  have hB1 : bucketsOf [⟨0, 5, 5⟩, ⟨7200, 10, 10⟩] Resolution.H1 3600 = [] := by
    decide
  have hB2 : bucketsOf [⟨0, 5, 5⟩, ⟨7200, 10, 10⟩] Resolution.H1 7200 =
      [⟨7200, 10, 10⟩] := by decide
  have hmA : buildBalanceOhlc [⟨7200, 10, 10⟩] Resolution.H1 (some 3600) 7200 =
      candlesFrom (bucketsOf [⟨7200, 10, 10⟩] Resolution.H1) 0 [7200] := by
    rw [← hblA]
    rfl
  have hmB : buildBalanceOhlc [⟨0, 5, 5⟩, ⟨7200, 10, 10⟩] Resolution.H1
      (some 3600) 7200 =
      candlesFrom (bucketsOf [⟨0, 5, 5⟩, ⟨7200, 10, 10⟩] Resolution.H1) 0
        [0, 3600, 7200] := by
    rw [← hblB]
    rfl
  refine ⟨?_, ?_, ?_, ?_⟩ <;>
    norm_num [hmA, hmB, candlesFrom_cons, candlesFrom, hbA, hB0, hB1, hB2,
      innerFold, max_def, min_def]

/-- C3 amended: re-running the candle builder with strictly older added
events (all falling in buckets before the first original bucket) does not
leave the in-window candles identical in general - their open, high, low
and close shift with the carried-in balance (see the counterexample) -
but the candle series of the wider run decomposes as k extra leading
candles, all at bucket times before the first original bucket, followed
by candles at exactly the original bucket times that agree with the
original run on time, volume, transaction count and net change. -/
theorem claim_C3 (r : Resolution) (now : Int) (cA cB : Option Int)
    (t0 : TItem) (E0 Eadd : List TItem)
    (hadd : ∀ e ∈ Eadd, roundRes e.timestamp r < firstBucket (t0 :: E0) r) :
    ∃ k : ℕ,
      (∀ c ∈ (buildBalanceOhlc (Eadd ++ (t0 :: E0)) r cB now).take k,
        c.time < firstBucket (t0 :: E0) r) ∧
      ((buildBalanceOhlc (Eadd ++ (t0 :: E0)) r cB now).drop k).map
          (fun c => (c.time, c.volume, c.tx_count, c.net_change)) =
        (buildBalanceOhlc (t0 :: E0) r cA now).map
          (fun c => (c.time, c.volume, c.tx_count, c.net_change)) ∧
      (∀ c ∈ buildBalanceOhlc (t0 :: E0) r cA now,
        firstBucket (t0 :: E0) r ≤ c.time) := by
  have hst := stepSec_pos r
  have hEne : (t0 :: E0) ≠ [] := by simp
  have hBne : Eadd ++ (t0 :: E0) ≠ [] := by simp
  obtain ⟨xA, hxA, hxAeq⟩ := firstBucket_mem (t0 :: E0) r hEne
  obtain ⟨yA, hyA, hyAeq⟩ := lastBucket_mem (t0 :: E0) r hEne
  obtain ⟨xB, hxB, hxBeq⟩ := firstBucket_mem (Eadd ++ (t0 :: E0)) r hBne
  have hsALA : firstBucket (t0 :: E0) r ≤ lastBucket (t0 :: E0) r := by
    calc firstBucket (t0 :: E0) r = roundRes xA.timestamp r := hxAeq
    _ ≤ lastBucket (t0 :: E0) r := lastBucket_ge (t0 :: E0) r xA hxA
  have hmBsA : firstBucket (Eadd ++ (t0 :: E0)) r ≤ firstBucket (t0 :: E0) r := by
    calc firstBucket (Eadd ++ (t0 :: E0)) r ≤ roundRes xA.timestamp r :=
      firstBucket_le (Eadd ++ (t0 :: E0)) r xA (by simp [hxA])
    _ = firstBucket (t0 :: E0) r := hxAeq.symm
  have hLB : lastBucket (Eadd ++ (t0 :: E0)) r = lastBucket (t0 :: E0) r := by
    apply le_antisymm
    · obtain ⟨y, hy, hyeq⟩ := lastBucket_mem (Eadd ++ (t0 :: E0)) r hBne
      rw [hyeq]
      rcases List.mem_append.mp hy with h | h
      · have h1 := hadd y h
        omega
      · exact lastBucket_ge (t0 :: E0) r y h
    · calc lastBucket (t0 :: E0) r = roundRes yA.timestamp r := hyAeq
      _ ≤ lastBucket (Eadd ++ (t0 :: E0)) r :=
        lastBucket_ge (Eadd ++ (t0 :: E0)) r yA (by simp [hyA])
  have hgA : stepSec r ∣ (firstBucket (t0 :: E0) r - phase r) := by
    rw [hxAeq]
    exact (roundRes_spec _ r).2.2
  have hgB : stepSec r ∣ (firstBucket (Eadd ++ (t0 :: E0)) r - phase r) := by
    rw [hxBeq]
    exact (roundRes_spec _ r).2.2
  have hroundA : roundRes (firstBucket (t0 :: E0) r) r = firstBucket (t0 :: E0) r := by
    rw [hxAeq, roundRes_idem]
  have hroundB : roundRes (firstBucket (Eadd ++ (t0 :: E0)) r) r =
      firstBucket (Eadd ++ (t0 :: E0)) r := by
    rw [hxBeq, roundRes_idem]
  have hdvd : stepSec r ∣
      (firstBucket (t0 :: E0) r - firstBucket (Eadd ++ (t0 :: E0)) r) := by
    have h := dvd_sub hgA hgB
    have h2 : (firstBucket (t0 :: E0) r - phase r) -
        (firstBucket (Eadd ++ (t0 :: E0)) r - phase r) =
        firstBucket (t0 :: E0) r - firstBucket (Eadd ++ (t0 :: E0)) r := by ring
    rw [h2] at h
    exact h
  obtain ⟨q, hq⟩ := hdvd
  have hq0 : 0 ≤ q := by
    rcases le_or_lt 0 q with h | h
    · exact h
    · exfalso
      have hneg : stepSec r * q < 0 := mul_neg_of_pos_of_neg hst h
      omega
  have hgEnd : stepSec r ∣
      (roundRes (max (lastBucket (t0 :: E0) r) now) r - phase r) :=
    (roundRes_spec _ r).2.2
  have hsAendR : firstBucket (t0 :: E0) r ≤
      roundRes (max (lastBucket (t0 :: E0) r) now) r := by
    calc firstBucket (t0 :: E0) r
        = roundRes (firstBucket (t0 :: E0) r) r := hroundA.symm
    _ ≤ roundRes (max (lastBucket (t0 :: E0) r) now) r :=
      roundRes_mono r (le_trans hsALA (le_max_left _ _))
  have hdvd2 : stepSec r ∣
      (roundRes (max (lastBucket (t0 :: E0) r) now) r -
        firstBucket (t0 :: E0) r) := by
    have h := dvd_sub hgEnd hgA
    have h2 : (roundRes (max (lastBucket (t0 :: E0) r) now) r - phase r) -
        (firstBucket (t0 :: E0) r - phase r) =
        roundRes (max (lastBucket (t0 :: E0) r) now) r -
          firstBucket (t0 :: E0) r := by ring
    rw [h2] at h
    exact h
  obtain ⟨qA, hqA⟩ := hdvd2
  have hqA0 : 0 ≤ qA := by
    rcases le_or_lt 0 qA with h | h
    · exact h
    · exfalso
      have hneg : stepSec r * qA < 0 := mul_neg_of_pos_of_neg hst h
      omega
  have hbsA : bucketListOf (t0 :: E0) r now =
      (List.range (qA.toNat + 1)).map
        (fun i : ℕ => firstBucket (t0 :: E0) r + stepSec r * (i : Int)) := by
    unfold bucketListOf
    apply genTimeBuckets_eq _ _ r qA.toNat hroundA
    rw [Int.toNat_of_nonneg hqA0]
    omega
  have hbsB : bucketListOf (Eadd ++ (t0 :: E0)) r now =
      (List.range ((qA + q).toNat + 1)).map
        (fun i : ℕ => firstBucket (Eadd ++ (t0 :: E0)) r + stepSec r * (i : Int)) := by
    unfold bucketListOf
    rw [hLB]
    apply genTimeBuckets_eq _ _ r (qA + q).toNat hroundB
    rw [Int.toNat_of_nonneg (by omega)]
    have hdist : stepSec r * (qA + q) = stepSec r * qA + stepSec r * q := by
      ring
    omega
  have hsplit : bucketListOf (Eadd ++ (t0 :: E0)) r now =
      ((List.range q.toNat).map
        (fun i : ℕ => firstBucket (Eadd ++ (t0 :: E0)) r + stepSec r * (i : Int))) ++
      ((List.range (qA.toNat + 1)).map
        (fun i : ℕ => firstBucket (t0 :: E0) r + stepSec r * (i : Int))) := by
    rw [hbsB]
    rw [show (qA + q).toNat + 1 = q.toNat + (qA.toNat + 1) by omega]
    rw [List.range_add, List.map_append, List.map_map]
    congr 1
    apply List.map_congr_left
    intro i _
    simp only [Function.comp_apply]
    push_cast
    rw [Int.toNat_of_nonneg hq0]
    have hdist : stepSec r * (q + (i : Int)) =
        stepSec r * q + stepSec r * i := by ring
    omega
  have hcsB2 : buildBalanceOhlc (Eadd ++ (t0 :: E0)) r cB now =
      candlesFrom (bucketsOf (Eadd ++ (t0 :: E0)) r) 0
        (bucketListOf (Eadd ++ (t0 :: E0)) r now) :=
    buildBalanceOhlc_ne_nil _ r cB now hBne
  have hcsA2 : buildBalanceOhlc (t0 :: E0) r cA now =
      candlesFrom (bucketsOf (t0 :: E0) r) 0 (bucketListOf (t0 :: E0) r now) :=
    buildBalanceOhlc_ne_nil _ r cA now hEne
  have hlen1 : (candlesFrom (bucketsOf (Eadd ++ (t0 :: E0)) r) 0
      ((List.range q.toNat).map
        (fun i : ℕ => firstBucket (Eadd ++ (t0 :: E0)) r + stepSec r * (i : Int)))).length =
      q.toNat := by
    rw [candlesFrom_length]
    simp
  refine ⟨q.toNat, ?_, ?_, ?_⟩
  · rw [hcsB2, hsplit, candlesFrom_append, List.take_left' hlen1]
    intro c hc
    have htime := List.mem_map_of_mem (fun c => c.time) hc
    rw [candlesFrom_times] at htime
    obtain ⟨i, hi, heq⟩ := List.mem_map.mp htime
    have heq2 : firstBucket (Eadd ++ (t0 :: E0)) r + stepSec r * (i : Int) =
        c.time := heq
    have hi2 : (i : Int) < q := by
      have := List.mem_range.mp hi
      omega
    have h3 : stepSec r * i < stepSec r * q := mul_lt_mul_of_pos_left hi2 hst
    omega
  · rw [hcsB2, hsplit, candlesFrom_append, List.drop_left' hlen1, hcsA2, hbsA]
    apply candlesFrom_proj
    intro b hb
    obtain ⟨i, hi, heq⟩ := List.mem_map.mp hb
    have heq2 : firstBucket (t0 :: E0) r + stepSec r * (i : Int) = b := heq
    apply bucketsOf_append
    intro e he
    have h1 := hadd e he
    have h2 : (0 : Int) ≤ stepSec r * i :=
      mul_nonneg (le_of_lt hst) (by positivity)
    omega
  · intro c hc
    rw [hcsA2, hbsA] at hc
    have htime := List.mem_map_of_mem (fun c => c.time) hc
    rw [candlesFrom_times] at htime
    obtain ⟨i, hi, heq⟩ := List.mem_map.mp htime
    have heq2 : firstBucket (t0 :: E0) r + stepSec r * (i : Int) = c.time := heq
    have h2 : (0 : Int) ≤ stepSec r * i :=
      mul_nonneg (le_of_lt hst) (by positivity)
    omega

/-- C3 witness: the amended decomposition applied to the concrete
counterexample inputs. -/
theorem claim_C3_witness :
    (∀ e ∈ ([⟨0, 5, 5⟩] : List TItem),
      roundRes e.timestamp Resolution.H1 <
        firstBucket [⟨7200, 10, 10⟩] Resolution.H1) ∧
    (∃ k : ℕ,
      (∀ c ∈ (buildBalanceOhlc ([⟨0, 5, 5⟩] ++ [⟨7200, 10, 10⟩])
          Resolution.H1 (some 3600) 7200).take k,
        c.time < firstBucket [⟨7200, 10, 10⟩] Resolution.H1) ∧
      ((buildBalanceOhlc ([⟨0, 5, 5⟩] ++ [⟨7200, 10, 10⟩]) Resolution.H1
          (some 3600) 7200).drop k).map
          (fun c => (c.time, c.volume, c.tx_count, c.net_change)) =
        (buildBalanceOhlc [⟨7200, 10, 10⟩] Resolution.H1 (some 3600)
          7200).map (fun c => (c.time, c.volume, c.tx_count, c.net_change)) ∧
      (∀ c ∈ buildBalanceOhlc [⟨7200, 10, 10⟩] Resolution.H1 (some 3600) 7200,
        firstBucket [⟨7200, 10, 10⟩] Resolution.H1 ≤ c.time)) :=
  ⟨by decide,
   claim_C3 Resolution.H1 7200 (some 3600) (some 3600) ⟨7200, 10, 10⟩ []
     [⟨0, 5, 5⟩] (by decide)⟩
